import Mathlib

/-!
Verification development for the OpenMetadata docstring-lineage linker.

The Python sources `openmetadata_linker.py` and `om_client.py` are embedded
shallowly below.  Strings are `List Char` (`PyStr`); Python docstrings,
config maps and file paths become explicit data; the `ast` module's parse
tree becomes the mutual inductive `PyNode`/`PyForest`, with `ast.walk`'s
breadth-first queue traversal embedded as a fuel-indexed function.  Fallible
Python code (exceptions) returns `Option`.
-/

/-- Python strings, modelled as lists of characters. -/
abbrev PyStr := List Char

/-- Characters stripped by Python `str.strip()` / matched by `\s` (ASCII and
the common Unicode whitespace the stdlib recognises). -/
def isPySpace (c : Char) : Bool :=
  c = ' ' || c = '\t' || c = '\n' || c = '\r' || c.toNat = 11 || c.toNat = 12 ||
  c.toNat = 28 || c.toNat = 29 || c.toNat = 30 || c.toNat = 31 || c.toNat = 133 || c.toNat = 160

/-- ASCII lower-casing, as `str.lower()` acts on the identifiers involved. -/
def lowerChar (c : Char) : Char :=
  if 65 ≤ c.toNat && c.toNat ≤ 90 then Char.ofNat (c.toNat + 32) else c

/-- Python `s.lower()`. -/
def pyLower (s : PyStr) : PyStr := s.map lowerChar

/-- Python `s.strip()`: drop whitespace from both ends. -/
def pyStrip (s : PyStr) : PyStr :=
  ((s.dropWhile isPySpace).reverse.dropWhile isPySpace).reverse

/-- Line-boundary characters of Python `str.splitlines()`. -/
def isLineBreakChar (c : Char) : Bool :=
  c = '\n' || c = '\r' || c.toNat = 11 || c.toNat = 12 || c.toNat = 28 ||
  c.toNat = 29 || c.toNat = 30 || c.toNat = 133 || c.toNat = 8232 || c.toNat = 8233

/-- Worker for `pySplitLines`; `acc` is the current line, reversed.  The
`'\r'`-then-`'\n'` pair counts as a single boundary. -/
def pySplitLinesAux (acc : PyStr) : PyStr → List PyStr
  | [] => [acc.reverse]
  | '\r' :: '\n' :: rest2 =>
    if rest2.isEmpty then [acc.reverse] else acc.reverse :: pySplitLinesAux [] rest2
  | c :: rest =>
    if isLineBreakChar c then
      if rest.isEmpty then [acc.reverse] else acc.reverse :: pySplitLinesAux [] rest
    else pySplitLinesAux (c :: acc) rest

/-- Python `str.splitlines()`: split on line boundaries, `\r\n` counted once,
no trailing empty line. -/
def pySplitLines : PyStr → List PyStr
  | [] => []
  | c :: rest => pySplitLinesAux [] (c :: rest)

/-- Worker for `splitComma`; `acc` is the current chunk, reversed. -/
def splitCommaAux (acc : PyStr) : PyStr → List PyStr
  | [] => [acc.reverse]
  | c :: rest =>
    if c = ',' then acc.reverse :: splitCommaAux [] rest else splitCommaAux (c :: acc) rest

/-- Python `s.split(',')` (an empty string yields one empty chunk). -/
def splitComma (s : PyStr) : List PyStr := splitCommaAux [] s

/-- Split a string at its first `':'`, as `text.find(":")` plus slicing does;
`none` when there is no colon. -/
def breakOnColon : PyStr → Option (PyStr × PyStr)
  | [] => none
  | c :: rest =>
    if c = ':' then some ([], rest)
    else (breakOnColon rest).map (fun p => (c :: p.1, p.2))

/-- `openmetadata_linker._split_app_field`: strip, require non-empty, split on
the first colon, strip both sides.  Empty sides are kept. -/
def _split_app_field (text : PyStr) : Option (PyStr × PyStr) :=
  let t := pyStrip text
  if t.isEmpty then none
  else
    match breakOnColon t with
    | none => none
    | some p => some (pyStrip p.1, pyStrip p.2)

/-- Characters of the `SECTION_UNDERLINE` character class. -/
def isUnderlineChar (c : Char) : Bool :=
  c = '=' || c = '~' || c.toNat = 96 || c = '^' || c = '#' || c = '*' || c = '-'

/-- `SECTION_UNDERLINE.match(line)`: 3+ underline characters then only
whitespace to the end of the line. -/
def isUnderline (l : PyStr) : Bool :=
  let run := l.takeWhile isUnderlineChar
  let rest := l.dropWhile isUnderlineChar
  decide (3 ≤ run.length) && rest.all isPySpace

/-- Case-insensitive literal prefix match; `pat` is given lower-case.
Returns the remainder after the prefix. -/
def stripPrefixCI : PyStr → PyStr → Option PyStr
  | [], s => some s
  | _ :: _, [] => none
  | p :: ps, c :: cs => if lowerChar c = p then stripPrefixCI ps cs else none

/-- Case-sensitive literal prefix match, returning the remainder. -/
def stripPrefixExact : PyStr → PyStr → Option PyStr
  | [], s => some s
  | _ :: _, [] => none
  | p :: ps, c :: cs => if c = p then stripPrefixExact ps cs else none

/-- The `\s*(.+)$` tail of the two line regexes, on newline-free line text:
greedy whitespace, then a non-empty capture to the line end (when the text is
all whitespace, backtracking leaves exactly its last character). -/
def group2 (t : PyStr) : Option PyStr :=
  if t.isEmpty then none
  else
    let r := t.dropWhile isPySpace
    if r.isEmpty then
      match t.reverse with
      | c :: _ => some [c]
      | [] => none
    else some r

/-- Lineage direction: Python stores the lower-cased matched keyword, which is
always exactly "upstream" or "downstream". -/
inductive Direction where
  | upstream
  | downstream
deriving DecidableEq

/-- A raw lineage declaration (`MetadataRef` dataclass). -/
structure MetadataRef where
  direction : Direction
  application : PyStr
  fld : PyStr
deriving DecidableEq

/-- Tail of the section body-line regex after the direction keyword:
`\s*:\s*(.+)$`. -/
def dirTail (d : Direction) (rem : PyStr) : Option (Direction × PyStr) :=
  match rem.dropWhile isPySpace with
  | ':' :: r => (group2 r).map (fun g => (d, g))
  | _ => none

/-- `re.match(r"^(?:-\s*)?(upstream|downstream)\s*:\s*(.+)$", line, IGNORECASE)`,
applied to an already-stripped line. -/
def matchDirLine (line : PyStr) : Option (Direction × PyStr) :=
  let l1 := match line with
    | '-' :: rest => rest.dropWhile isPySpace
    | _ => line
  match stripPrefixCI ("upstream".toList) l1 with
  | some rem => dirTail Direction.upstream rem
  | none =>
    match stripPrefixCI ("downstream".toList) l1 with
    | some rem => dirTail Direction.downstream rem
    | none => none

/-- Tail of the field-list regex after the direction keyword: `:\s*(.+)$`. -/
def fieldListTail (d : Direction) (rem : PyStr) : Option (Direction × PyStr) :=
  match rem with
  | ':' :: r => (group2 r).map (fun g => (d, g))
  | _ => none

/-- `re.match(r"^:openmetadata-(upstream|downstream):\s*(.+)$", line, IGNORECASE)`,
applied to an already-stripped line. -/
def matchFieldList (line : PyStr) : Option (Direction × PyStr) :=
  match line with
  | ':' :: rest =>
    match stripPrefixCI ("openmetadata-".toList) rest with
    | some r1 =>
      match stripPrefixCI ("upstream".toList) r1 with
      | some r2 => fieldListTail Direction.upstream r2
      | none =>
        match stripPrefixCI ("downstream".toList) r1 with
        | some r2 => fieldListTail Direction.downstream r2
        | none => none
    | none => none
  | _ => none

/-- Comma-split the matched `rest` and parse each part with
`_split_app_field`, dropping failures (the loop body shared by passes 1-2). -/
def refsFromRest (d : Direction) (rest : PyStr) : List MetadataRef :=
  (splitComma rest).filterMap
    (fun part => (_split_app_field part).map (fun p => MetadataRef.mk d p.1 p.2))

/-- Body-collection loop of Pattern A: stop before a non-empty line that is
followed by an underline line; otherwise keep collecting. -/
def collectA : List PyStr → List PyStr
  | [] => []
  | [l] => [l]
  | l :: l2 :: rest =>
    if !(pyStrip l).isEmpty && isUnderline l2 then []
    else l :: collectA (l2 :: rest)

/-- Is this line the section title (`line.strip().lower() == "openmetadata"`)? -/
def isHeadingTitle (l : PyStr) : Bool :=
  decide (pyLower (pyStrip l) = "openmetadata".toList)

/-- Pattern A of `_extract_openmetadata_section_lines`: first reST heading
(title line followed by an underline line) wins; body is collected by
`collectA` from two lines further on. -/
def patternA : List PyStr → Option (List PyStr)
  | l :: l2 :: rest =>
    if isHeadingTitle l && isUnderline l2 then some (collectA rest)
    else patternA (l2 :: rest)
  | _ => none

/-- Case-insensitive-free literal prefix test on equal characters. -/
def isPre : PyStr → PyStr → Bool
  | [], _ => true
  | _ :: _, [] => false
  | p :: ps, c :: cs => p = c && isPre ps cs

/-- `l.split(":", 1)[1]` for a line known to contain a colon (guarded by the
`startswith` test in Pattern B); empty if no colon exists. -/
def afterFirstColon (l : PyStr) : PyStr :=
  match breakOnColon l with
  | some p => p.2
  | none => []

/-- Indented-block collection of Pattern B: following lines while non-blank. -/
def collectB : List PyStr → List PyStr
  | [] => []
  | l :: rest => if (pyStrip l).isEmpty then [] else l :: collectB rest

/-- Pattern B of `_extract_openmetadata_section_lines`: a label line whose
stripped lower-case form starts with "openmetadata:", its same-line remainder
(kept when non-blank) plus the following non-blank lines. -/
def patternB : List PyStr → Option (List PyStr)
  | [] => none
  | l :: rest =>
    if isPre ("openmetadata:".toList) (pyLower (pyStrip l)) then
      let after := afterFirstColon l
      some ((if (pyStrip after).isEmpty then [] else [after]) ++ collectB rest)
    else patternB rest

/-- `openmetadata_linker._extract_openmetadata_section_lines`. -/
def _extract_openmetadata_section_lines (doc : PyStr) : List PyStr :=
  match patternA (pySplitLines doc) with
  | some content => content
  | none =>
    match patternB (pySplitLines doc) with
    | some content => content
    | none => []

/-- Pass 1 of `parse_docstring_for_tags`: directive lines of the extracted
OpenMetadata section. -/
def sectionRefs (doc : PyStr) : List MetadataRef :=
  (_extract_openmetadata_section_lines doc).flatMap (fun raw =>
    let line := pyStrip raw
    if line.isEmpty then []
    else
      match matchDirLine line with
      | some dr => refsFromRest dr.1 dr.2
      | none => [])

/-- Pass 2 of `parse_docstring_for_tags`: `:openmetadata-⟨dir⟩:` field-list
lines anywhere in the docstring. -/
def fieldListRefs (doc : PyStr) : List MetadataRef :=
  (pySplitLines doc).flatMap (fun raw =>
    match matchFieldList (pyStrip raw) with
    | some dr => refsFromRest dr.1 dr.2
    | none => [])

/-- Group part of `TAG_PATTERN` after the direction keyword:
`\(([^:()]+):([^)]+)\)`.  Returns (application, field, remainder). -/
def tagArgs (r1 : PyStr) : Option (PyStr × PyStr × PyStr) :=
  match r1 with
  | '(' :: r2 =>
    let app := r2.takeWhile (fun c => !(c = ':' || c = '(' || c = ')'))
    let r3 := r2.dropWhile (fun c => !(c = ':' || c = '(' || c = ')'))
    if app.isEmpty then none
    else
      match r3 with
      | ':' :: r4 =>
        let fld := r4.takeWhile (fun c => !(c = ')'))
        let r5 := r4.dropWhile (fun c => !(c = ')'))
        if fld.isEmpty then none
        else
          match r5 with
          | ')' :: r6 => some (app, fld, r6)
          | _ => none
      | _ => none
  | _ => none

/-- One attempt of `TAG_PATTERN` anchored at the start of `s`
(`openmetadata:(upstream|downstream)\(([^:()]+):([^)]+)\)`, case-sensitive). -/
def tagMatchAt (s : PyStr) : Option (Direction × PyStr × PyStr × PyStr) :=
  match stripPrefixExact ("openmetadata:".toList) s with
  | none => none
  | some r =>
    match stripPrefixExact ("upstream".toList) r with
    | some r1 =>
      match tagArgs r1 with
      | some afr => some (Direction.upstream, afr.1, afr.2.1, afr.2.2)
      | none => none
    | none =>
      match stripPrefixExact ("downstream".toList) r with
      | some r1 =>
        match tagArgs r1 with
        | some afr => some (Direction.downstream, afr.1, afr.2.1, afr.2.2)
        | none => none
      | none => none

/-- `TAG_PATTERN.finditer` scan: try a match at each position, skip past a
match's end, one character otherwise.  Fuel is the remaining length. -/
def findTagsAux : Nat → PyStr → List (Direction × PyStr × PyStr)
  | 0, _ => []
  | _ + 1, [] => []
  | k + 1, c :: rest =>
    match tagMatchAt (c :: rest) with
    | some m => (m.1, m.2.1, m.2.2.1) :: findTagsAux k m.2.2.2
    | none => findTagsAux k rest

/-- All `TAG_PATTERN` matches of a docstring, left to right, non-overlapping. -/
def findTags (s : PyStr) : List (Direction × PyStr × PyStr) :=
  findTagsAux s.length s

/-- Pass 3 of `parse_docstring_for_tags`: inline tags, groups stripped. -/
def tagRefs (doc : PyStr) : List MetadataRef :=
  (findTags doc).map (fun t => MetadataRef.mk t.1 (pyStrip t.2.1) (pyStrip t.2.2))

/-- The `refs` list of `parse_docstring_for_tags` before deduplication:
pass 1 then pass 2 then pass 3, in order. -/
def rawRefs (doc : PyStr) : List MetadataRef :=
  sectionRefs doc ++ fieldListRefs doc ++ tagRefs doc

/-- Deduplication key: the `(direction, application, field)` triple. -/
def refKey (r : MetadataRef) : Direction × PyStr × PyStr :=
  (r.direction, r.application, r.fld)

/-- One step of the dedup dict `unique[key] = r`: an existing key keeps its
insertion position and has its value overwritten; a new key is appended. -/
def dictInsert (acc : List MetadataRef) (r : MetadataRef) : List MetadataRef :=
  if acc.any (fun x => decide (refKey x = refKey r)) then
    acc.map (fun x => if refKey x = refKey r then r else x)
  else acc ++ [r]

/-- The dedup loop of `parse_docstring_for_tags` (`dict` insertion order). -/
def dedupRefs (refs : List MetadataRef) : List MetadataRef :=
  refs.foldl dictInsert []

/-- `openmetadata_linker.parse_docstring_for_tags` (input `None` or a string;
`if not docstring` also catches the empty string). -/
def parse_docstring_for_tags : Option PyStr → List MetadataRef
  | none => []
  | some d => if d.isEmpty then [] else dedupRefs (rawRefs d)

/-! Specification-side definitions for the parser claims, written from the
spec's words, to be compared with the embedded functions. -/

/-- First-occurrence deduplication, as the spec words it: a declaration is
kept iff its triple was not seen before, in first-encountered order. -/
def firstDedupAux (seen : List MetadataRef) : List MetadataRef → List MetadataRef
  | [] => []
  | r :: rest =>
    if r ∈ seen then firstDedupAux seen rest
    else r :: firstDedupAux (r :: seen) rest

/-- First-occurrence deduplication of a declaration list. -/
def firstDedup (l : List MetadataRef) : List MetadataRef := firstDedupAux [] l

/-- Index of the first section heading: a title line immediately followed by
an underline line. -/
def headingIdx? : List PyStr → Option Nat
  | l :: l2 :: rest =>
    if isHeadingTitle l && isUnderline l2 then some 0
    else (headingIdx? (l2 :: rest)).map (· + 1)
  | _ => none

/-- Index of the first body line at which, per the claim's words, the section
ends: a line that is itself followed by an underline line. -/
def claimStopIdx? : List PyStr → Option Nat
  | _ :: l2 :: rest =>
    if isUnderline l2 then some 0
    else (claimStopIdx? (l2 :: rest)).map (· + 1)
  | _ => none

/-- Section body as the claim words it: the lines up to, but not including,
the next line that is followed by an underline line, or all of them. -/
def claimSectionBody (ls : List PyStr) : List PyStr :=
  match claimStopIdx? ls with
  | some k => ls.take k
  | none => ls

/-- Index of the first body line at which the section actually ends: a line
that is non-empty after stripping and is followed by an underline line. -/
def stopIdx? : List PyStr → Option Nat
  | l :: l2 :: rest =>
    if !(pyStrip l).isEmpty && isUnderline l2 then some 0
    else (stopIdx? (l2 :: rest)).map (· + 1)
  | _ => none

/-- Section body per the amended claim: the lines up to, but not including,
the next non-blank line followed by an underline line, or all of them. -/
def specSectionBody (ls : List PyStr) : List PyStr :=
  match stopIdx? ls with
  | some k => ls.take k
  | none => ls

/-- No two consecutive docstring lines form a section heading (absence of the
section-style syntax). -/
def noSectionHeading (doc : PyStr) : Bool :=
  let ls := pySplitLines doc
  (ls.zip ls.tail).all (fun p => !(isHeadingTitle p.1 && isUnderline p.2))

/-- No docstring line starts (stripped, lower-cased) with "openmetadata:"
(absence of the label-style syntax recognised by Pattern B). -/
def noLabelLine (doc : PyStr) : Bool :=
  (pySplitLines doc).all (fun l => !(isPre ("openmetadata:".toList) (pyLower (pyStrip l))))

/-- No docstring line matches the field-list regex (absence of the field-list
syntax). -/
def noFieldListLine (doc : PyStr) : Bool :=
  (pySplitLines doc).all (fun l => (matchFieldList (pyStrip l)).isNone)

/-- `TAG_PATTERN` matches at no position of the docstring (absence of the
inline-tag syntax). -/
def noInlineTag (doc : PyStr) : Bool :=
  doc.tails.all (fun s => (tagMatchAt s).isNone)

/-- Boolean check that a list of numbers is monotonically non-decreasing. -/
def nonDecreasingB : List Nat → Bool
  | [] => true
  | [_] => true
  | a :: b :: rest => decide (a ≤ b) && nonDecreasingB (b :: rest)

/-- Boolean check that a list of numbers is strictly increasing. -/
def strictlyIncreasingB : List Nat → Bool
  | [] => true
  | [_] => true
  | a :: b :: rest => decide (a < b) && strictlyIncreasingB (b :: rest)

/-! The `ast` parse tree and `extract_functions_from_file`. -/

mutual
/-- A node of the parsed Python module: a (sync or async) function definition
with its name, 1-based `lineno`, extracted docstring and child nodes, or any
other node with its child nodes.  `doc` holds what `ast.get_docstring`
returns for the node. -/
inductive PyNode where
  | funcDef (name : PyStr) (lineno : Nat) (doc : Option PyStr) (body : PyForest)
  | asyncFuncDef (name : PyStr) (lineno : Nat) (doc : Option PyStr) (body : PyForest)
  | other (body : PyForest)
deriving DecidableEq
/-- A sequence of sibling nodes. -/
inductive PyForest where
  | nil
  | cons (n : PyNode) (rest : PyForest)
deriving DecidableEq
end

mutual
/-- Number of nodes in a subtree. -/
def sizeNode : PyNode → Nat
  | .funcDef _ _ _ b => 1 + sizeForest b
  | .asyncFuncDef _ _ _ b => 1 + sizeForest b
  | .other b => 1 + sizeForest b
/-- Number of nodes in a forest. -/
def sizeForest : PyForest → Nat
  | .nil => 0
  | .cons n rest => sizeNode n + sizeForest rest
end

/-- `ast.iter_child_nodes`. -/
def childrenOf : PyNode → PyForest
  | .funcDef _ _ _ b => b
  | .asyncFuncDef _ _ _ b => b
  | .other b => b

/-- A forest as a list of its root nodes. -/
def PyForest.toList : PyForest → List PyNode
  | .nil => []
  | .cons n rest => n :: rest.toList

/-- Total number of nodes in a queue of subtrees. -/
def queueSize : List PyNode → Nat
  | [] => 0
  | n :: rest => sizeNode n + queueSize rest

/-- `ast.walk`'s deque loop: pop the front node, yield it, push its children
at the back.  Fuel bounds the number of pops. -/
def walkAux : Nat → List PyNode → List PyNode
  | 0, _ => []
  | _ + 1, [] => []
  | k + 1, n :: rest => n :: walkAux k (rest ++ (childrenOf n).toList)

/-- `ast.walk` from a queue of roots (the fuel `queueSize q` is exact). -/
def astWalk (q : List PyNode) : List PyNode :=
  walkAux (queueSize q) q

/-- `isinstance(node, ast.FunctionDef)` — false for `ast.AsyncFunctionDef`. -/
def isFuncDef : PyNode → Bool
  | .funcDef _ _ _ _ => true
  | _ => false

/-- The `lineno` attribute of a definition node. -/
def nodeLineno : PyNode → Nat
  | .funcDef _ l _ _ => l
  | .asyncFuncDef _ l _ _ => l
  | .other _ => 0

/-- One discovered function (`FunctionEntry` dataclass). -/
structure FunctionEntry where
  name : PyStr
  lineno : Nat
  docstring : Option PyStr
  tags : List MetadataRef
deriving DecidableEq

/-- The `FunctionEntry` built for a definition node. -/
def entryOf : PyNode → FunctionEntry
  | .funcDef nm l d _ => FunctionEntry.mk nm l d (parse_docstring_for_tags d)
  | .asyncFuncDef nm l d _ => FunctionEntry.mk nm l d (parse_docstring_for_tags d)
  | .other _ => FunctionEntry.mk [] 0 none []

/-- `openmetadata_linker.extract_functions_from_file`, from the parsed module
body (reading and `ast.parse` are the external parser): walk the tree
breadth-first and collect an entry per `ast.FunctionDef` node. -/
def extract_functions_from_file (body : PyForest) : List FunctionEntry :=
  ((astWalk [PyNode.other body]).filter isFuncDef).map entryOf

mutual
/-- Depth-first pre-order of a subtree — the textual (file) order of nodes. -/
def dfsNode : PyNode → List PyNode
  | .funcDef a b c body => .funcDef a b c body :: dfsForest body
  | .asyncFuncDef a b c body => .asyncFuncDef a b c body :: dfsForest body
  | .other body => .other body :: dfsForest body
/-- Depth-first pre-order of a forest. -/
def dfsForest : PyForest → List PyNode
  | .nil => []
  | .cons n rest => dfsNode n ++ dfsForest rest
end

/-- Depth-first pre-order of a queue of subtrees. -/
def dfsList : List PyNode → List PyNode
  | [] => []
  | n :: rest => dfsNode n ++ dfsList rest

mutual
/-- The subtree contains no `ast.FunctionDef` node at all. -/
def fdFreeNode : PyNode → Bool
  | .funcDef _ _ _ _ => false
  | .asyncFuncDef _ _ _ b => fdFreeForest b
  | .other b => fdFreeForest b
/-- The forest contains no `ast.FunctionDef` node at all. -/
def fdFreeForest : PyForest → Bool
  | .nil => true
  | .cons n rest => fdFreeNode n && fdFreeForest rest
end

/-! The catalog client `om_client.py`, offline mode.  File paths are lists of
path components; the current working directory is a parameter. -/

/-- `om_client.EntityRef` dataclass. -/
structure EntityRef where
  type : PyStr
  fqn : PyStr
  id : Option PyStr := none
deriving DecidableEq

/-- One application's block of the `applications` config mapping:
`{type?, fqn?, columns?}`. -/
structure AppCfg where
  type? : Option PyStr
  fqn? : Option PyStr
  columns : List (PyStr × PyStr)
deriving DecidableEq

/-- The configuration consumed by `OpenMetadataHelper`. -/
structure OMConfig where
  pipelineServiceName : Option PyStr
  applications : List (PyStr × AppCfg)
  hostPort : Option PyStr
  jwtToken : Option PyStr
deriving DecidableEq

/-- Ordered-dict lookup (`dict.get`). -/
def lookupA {α : Type} : List (PyStr × α) → PyStr → Option α
  | [], _ => none
  | kv :: rest, k => if kv.1 = k then some kv.2 else lookupA rest k

/-- The entity-level fallback of `resolve_application_field`: declared type
(default "table"), configured fqn; `if not ent_fqn` also drops an empty fqn. -/
def entityFallback (app : AppCfg) : Option EntityRef :=
  let entType := app.type?.getD ("table".toList)
  match app.fqn? with
  | none => none
  | some fq => if fq.isEmpty then none else some (EntityRef.mk entType fq none)

/-- `OpenMetadataHelper.resolve_application_field`.  `if col_fqn:` is Python
truthiness, so an empty mapped string falls through to the fallback. -/
def resolve_application_field (cfg : OMConfig) (application fld : PyStr) : Option EntityRef :=
  match lookupA cfg.applications application with
  | none => none
  | some app =>
    match lookupA app.columns fld with
    | some colFqn =>
      if colFqn.isEmpty then entityFallback app
      else some (EntityRef.mk ("column".toList) colFqn none)
    | none => entityFallback app

/-- Resolution as the claim words it: a mapped field always yields a Column
reference with the mapped name; otherwise the entity-level default (kind
defaulting to "table") with the configured fqn, absent when none is
configured. -/
def resolveClaim (cfg : OMConfig) (application fld : PyStr) : Option EntityRef :=
  match lookupA cfg.applications application with
  | none => none
  | some app =>
    match lookupA app.columns fld with
    | some colFqn => some (EntityRef.mk ("column".toList) colFqn none)
    | none =>
      match app.fqn? with
      | none => none
      | some fq => some (EntityRef.mk (app.type?.getD ("table".toList)) fq none)

/-- Resolution as amended: a field mapped to a non-empty name yields the
Column reference; an empty mapping falls through to the entity level, which
applies only when the configured fqn is non-empty. -/
def resolveAmended (cfg : OMConfig) (application fld : PyStr) : Option EntityRef :=
  match lookupA cfg.applications application with
  | none => none
  | some app =>
    let entity :=
      match app.fqn? with
      | none => none
      | some fq =>
        if fq.isEmpty then none
        else some (EntityRef.mk (app.type?.getD ("table".toList)) fq none)
    match lookupA app.columns fld with
    | some colFqn =>
      if colFqn.isEmpty then entity
      else some (EntityRef.mk ("column".toList) colFqn none)
    | none => entity

/-- One queued offline request of the `pipelines` array. -/
inductive PipelineAction where
  | ensure (service : PyStr) (name : PyStr) (file : List PyStr)
  | ensureTask (pipeline : PyStr) (task : PyStr) (file : List PyStr) (lineno : Nat)
deriving DecidableEq

/-- One queued offline lineage record (`from/fromType/to/toType`， each
possibly null). -/
structure LineageRecord where
  fromFqn : Option PyStr
  fromType : Option PyStr
  toFqn : Option PyStr
  toType : Option PyStr
deriving DecidableEq

/-- The in-memory offline request log (`services` is an unused placeholder
and is omitted). -/
structure Requests where
  pipelines : List PipelineAction
  lineage : List LineageRecord
deriving DecidableEq

/-- `file_path.relative_to(cwd)` on component lists: drop the prefix, `none`
for the `ValueError` when `cwd` is not a prefix. -/
def relative_to : List PyStr → List PyStr → Option (List PyStr)
  | [], p => some p
  | _ :: _, [] => none
  | c :: cs, x :: xs => if c = x then relative_to cs xs else none

/-- Replace the path-separator characters with underscores, per the two
`str.replace` calls. -/
def sepRepl (c : Char) : Char :=
  if c = '\\' || c = '/' then '_' else c

/-- Join path components with a separator character. -/
def joinWith (sep : Char) : List PyStr → PyStr
  | [] => []
  | [x] => x
  | x :: y :: rest => x ++ sep :: joinWith sep (y :: rest)

/-- `OpenMetadataHelper._pipeline_name_for_file`:
`str(file_path.relative_to(Path.cwd())).replace("\\", "_").replace("/", "_")`
(`str` of an empty relative path is "."). -/
def _pipeline_name_for_file (cwd p : List PyStr) : Option PyStr :=
  (relative_to cwd p).map (fun rel =>
    (if rel.isEmpty then ['.'] else joinWith '/' rel).map sepRepl)

/-- The spec-side pipeline name: the relative path's components joined by the
fixed separator, path-separator characters inside components replaced too. -/
def specPipelineName (rel : List PyStr) : PyStr :=
  joinWith '_' (rel.map (fun comp => comp.map sepRepl))

/-- The configured pipeline service name (`"code-service"` default). -/
def serviceNameOf (cfg : OMConfig) : PyStr :=
  cfg.pipelineServiceName.getD ("code-service".toList)

/-- `OpenMetadataHelper.ensure_pipeline_for_file`, offline branch: compute
the deterministic name and fqn, append the ensure action, return the ref.
`none` models the `ValueError` from `relative_to`. -/
def ensure_pipeline_for_file (cfg : OMConfig) (cwd : List PyStr) (reqs : Requests)
    (p : List PyStr) : Option (EntityRef × Requests) :=
  match _pipeline_name_for_file cwd p with
  | none => none
  | some name =>
    let service := serviceNameOf cfg
    let fqn := service ++ '.' :: name
    some (EntityRef.mk ("pipeline".toList) fqn none,
      Requests.mk (reqs.pipelines ++ [PipelineAction.ensure service name p]) reqs.lineage)

/-- `OpenMetadataHelper.ensure_task_for_function`, offline branch. -/
def ensure_task_for_function (reqs : Requests) (pipeline : EntityRef) (p : List PyStr)
    (funcName : PyStr) (lineno : Nat) : EntityRef × Requests :=
  let taskFqn := pipeline.fqn ++ '.' :: funcName
  (EntityRef.mk ("pipelineTask".toList) taskFqn none,
    Requests.mk (reqs.pipelines ++ [PipelineAction.ensureTask pipeline.fqn funcName p lineno])
      reqs.lineage)

/-- `OpenMetadataHelper.create_lineage`, offline branch: append a record
whose sides prefer the ref over the task, null when neither is given. -/
def create_lineage (reqs : Requests) (fromRef toTask fromTask toRef : Option EntityRef) :
    Requests :=
  Requests.mk reqs.pipelines (reqs.lineage ++ [LineageRecord.mk
    (match fromRef with
     | some r => some r.fqn
     | none => fromTask.map (fun t => t.fqn))
    (match fromRef with
     | some r => some r.type
     | none => fromTask.map (fun t => t.type))
    (match toRef with
     | some r => some r.fqn
     | none => toTask.map (fun t => t.fqn))
    (match toRef with
     | some r => some r.type
     | none => toTask.map (fun t => t.type))])

/-- The per-tag loop of `create_openmetadata_entries`: resolve, skip with a
warning when unmapped, otherwise emit the direction-oriented edge. -/
def processTags (cfg : OMConfig) (task : EntityRef) :
    List MetadataRef → Requests → Requests
  | [], reqs => reqs
  | tag :: rest, reqs =>
    match resolve_application_field cfg tag.application tag.fld with
    | none => processTags cfg task rest reqs
    | some ref =>
      processTags cfg task rest
        (if tag.direction = Direction.upstream then
          create_lineage reqs (some ref) (some task) none none
        else
          create_lineage reqs none none (some task) (some ref))

/-- The per-function loop of `create_openmetadata_entries`. -/
def processFunctions (cfg : OMConfig) (pipe : EntityRef) (p : List PyStr) :
    List FunctionEntry → Requests → Requests
  | [], reqs => reqs
  | fn :: rest, reqs =>
    let tr := ensure_task_for_function reqs pipe p fn.name fn.lineno
    processFunctions cfg pipe p rest (processTags cfg tr.1 fn.tags tr.2)

/-- The per-file loop of `create_openmetadata_entries`; the second component
is `none` when a `ValueError` escaped (the partial request log is kept). -/
def createEntriesAux (cfg : OMConfig) (cwd : List PyStr) :
    List (List PyStr × List FunctionEntry) → Requests → Requests × Option Unit
  | [], reqs => (reqs, some ())
  | fe :: rest, reqs =>
    match ensure_pipeline_for_file cfg cwd reqs fe.1 with
    | none => (reqs, none)
    | some pr => createEntriesAux cfg cwd rest (processFunctions cfg pr.1 fe.1 fe.2 pr.2)

/-- `openmetadata_linker.create_openmetadata_entries` in non-dry-run offline
mode, starting from the helper's empty request log. -/
def create_openmetadata_entries (cfg : OMConfig) (cwd : List PyStr)
    (entries : List (List PyStr × List FunctionEntry)) : Requests × Option Unit :=
  createEntriesAux cfg cwd entries (Requests.mk [] [])

/-- The pipeline fqn `service.name` a file resolves to. -/
def pipelineFqnOf (cfg : OMConfig) (cwd p : List PyStr) : Option PyStr :=
  (_pipeline_name_for_file cwd p).map (fun name => serviceNameOf cfg ++ '.' :: name)

/-- The edge the claim prescribes for one declaration: an Upstream
declaration resolving to R gives (R → task), a Downstream one (task → R). -/
def edgeOfTag (cfg : OMConfig) (taskFqn : PyStr) (tag : MetadataRef) : Option LineageRecord :=
  (resolve_application_field cfg tag.application tag.fld).map (fun ref =>
    match tag.direction with
    | Direction.upstream =>
      LineageRecord.mk (some ref.fqn) (some ref.type) (some taskFqn) (some ("pipelineTask".toList))
    | Direction.downstream =>
      LineageRecord.mk (some taskFqn) (some ("pipelineTask".toList)) (some ref.fqn) (some ref.type))

/-- The full lineage list the claim prescribes for a run. -/
def lineageSpec (cfg : OMConfig) (cwd : List PyStr)
    (entries : List (List PyStr × List FunctionEntry)) : List LineageRecord :=
  entries.flatMap (fun fe =>
    match pipelineFqnOf cfg cwd fe.1 with
    | none => []
    | some pfqn =>
      fe.2.flatMap (fun fn => fn.tags.filterMap (edgeOfTag cfg (pfqn ++ '.' :: fn.name))))

/-! The `main` control flow, as an event trace. -/

/-- Observable events of one run: a file scanned (parsed and extracted), or a
catalog mutation queued. -/
inductive MainEvent where
  | scannedFile (p : List PyStr)
  | catalogAction (a : PipelineAction)
  | lineageAction (r : LineageRecord)
deriving DecidableEq

/-- The catalog mutations of a request log, as events. -/
def eventsOfRequests (reqs : Requests) : List MainEvent :=
  reqs.pipelines.map MainEvent.catalogAction ++ reqs.lineage.map MainEvent.lineageAction

/-- `openmetadata_linker.main` after argument parsing: scan (parse + extract)
every file, then dispatch as `create_openmetadata_entries` does — dry-run
(also forced when no config is given) returns after printing; otherwise the
helper is constructed, whose `_init_client` raises when the `metadata`
package imports but `hostPort`/`jwtToken` is missing; online runs are the
external client (a parameter); offline runs queue requests.  Returns the
event trace and `none` for an uncaught error. -/
def mainModel (omImportable dryRunFlag configGiven : Bool) (cfg : OMConfig)
    (cwd : List PyStr) (files : List (List PyStr × PyForest))
    (onlineRun : List (List PyStr × List FunctionEntry) → List MainEvent × Option Unit) :
    List MainEvent × Option Unit :=
  let entries := files.map (fun f => (f.1, extract_functions_from_file f.2))
  let scanEvents := files.map (fun f => MainEvent.scannedFile f.1)
  if dryRunFlag || !configGiven then (scanEvents, some ())
  else if omImportable then
    if cfg.hostPort.isNone || cfg.jwtToken.isNone then (scanEvents, none)
    else (scanEvents ++ (onlineRun entries).1, (onlineRun entries).2)
  else
    let rr := create_openmetadata_entries cfg cwd entries
    (scanEvents ++ eventsOfRequests rr.1, rr.2)

/-! Concrete inputs used by the individual claims. -/

/-- C2's configuration: `billing` maps the field `amount` to an empty string. -/
def exCfgC2 : OMConfig :=
  OMConfig.mk none [("billing".toList, AppCfg.mk none none [("amount".toList, [])])] none none

/-- C3's module: `def a` (line 1) containing `def inner` (line 2), then
`def b` (line 4). -/
def exBodyC3 : PyForest :=
  PyForest.cons (PyNode.funcDef ("a".toList) 1 none
      (PyForest.cons (PyNode.funcDef ("inner".toList) 2 none PyForest.nil) PyForest.nil))
    (PyForest.cons (PyNode.funcDef ("b".toList) 4 none PyForest.nil) PyForest.nil)

/-- C3's witness module: two top-level defs around a simple statement. -/
def exFlatC3 : PyForest :=
  PyForest.cons (PyNode.funcDef ("f".toList) 1 none PyForest.nil)
    (PyForest.cons (PyNode.other PyForest.nil)
      (PyForest.cons (PyNode.funcDef ("g".toList) 3 none PyForest.nil) PyForest.nil))

/-- C5's docstring: only the label-style syntax that the spec's three
syntaxes do not cover. -/
def exDocC5 : PyStr := "OpenMetadata: upstream: a:b".toList

/-- C5's witness docstring: no tag syntax at all. -/
def exDocC5w : PyStr := "hello world\nnothing here".toList

/-- C6's configuration: a host but no JWT token. -/
def exCfgC6 : OMConfig := OMConfig.mk none [] (some ("localhost:8585".toList)) none

/-- C6's single scanned file. -/
def exFileC6 : List PyStr × PyForest :=
  (["proj".toList, "f.py".toList],
    PyForest.cons (PyNode.funcDef ("fn".toList) 1 none PyForest.nil) PyForest.nil)

/-- C7's docstring: the section body contains a blank line followed by an
underline line. -/
def exDocC7 : PyStr := "OpenMetadata\n====\nupstream: a:b\n\n----\nmore".toList

/-- C7's witness docstring: a plain well-formed section. -/
def exDocC7w : PyStr := "OpenMetadata\n===\nupstream: a:b".toList

/-- C1's configuration: one mapped application with an entity-level fqn. -/
def exCfgC1 : OMConfig :=
  OMConfig.mk none [("billing".toList, AppCfg.mk none (some ("db.billing".toList)) [])] none none

/-- C1's extracted entries: one file, one function, one declaration of each
direction. -/
def exEntriesC1 : List (List PyStr × List FunctionEntry) :=
  [(["pkg".toList, "f.py".toList],
    [FunctionEntry.mk ("fn".toList) 1 none
      [MetadataRef.mk Direction.upstream ("billing".toList) ("amt".toList),
       MetadataRef.mk Direction.downstream ("billing".toList) ("amt".toList)]])]

/-- C10's module: an async def with a tagged docstring, then a sync def. -/
def exBodyC10 : PyForest :=
  PyForest.cons (PyNode.asyncFuncDef ("af".toList) 1
      (some ("see openmetadata:upstream(crm:cid)".toList)) PyForest.nil)
    (PyForest.cons (PyNode.funcDef ("sf".toList) 3 none PyForest.nil) PyForest.nil)

/-- C8's working directory. -/
def exCwdC8 : List PyStr := ["w".toList]

/-- C8's file path, below the working directory. -/
def exPathC8 : List PyStr := ["w".toList, "a".toList, "b.py".toList]

/-- C8's relative path. -/
def exRelC8 : List PyStr := ["a".toList, "b.py".toList]

/-- C8's configuration (defaults). -/
def exCfgC8 : OMConfig := OMConfig.mk none [] none none

/-- C8's first request-log state. -/
def exReqsC8a : Requests := Requests.mk [] []

/-- C8's second, different request-log state. -/
def exReqsC8b : Requests := Requests.mk [PipelineAction.ensure ("s".toList) ("n".toList) []] []

/-! Lemmas about deduplication (claim C4). -/

theorem refKey_inj (x y : MetadataRef) : refKey x = refKey y ↔ x = y := by
  cases x
  cases y
  simp [refKey]

theorem dictInsert_eq (acc : List MetadataRef) (r : MetadataRef) :
    dictInsert acc r = if r ∈ acc then acc else acc ++ [r] := by
  by_cases h : r ∈ acc
  · have hany : (acc.any (fun x => decide (refKey x = refKey r))) = true :=
      List.any_eq_true.mpr ⟨r, h, by simp⟩
    have hmap : acc.map (fun x => if refKey x = refKey r then r else x) = acc := by
      have hcong : ∀ x ∈ acc, (if refKey x = refKey r then r else x) = id x := by
        intro x _
        by_cases hx : refKey x = refKey r
        · rw [if_pos hx]
          exact ((refKey_inj x r).mp hx).symm
        · rw [if_neg hx]
          rfl
      exact (List.map_congr_left hcong).trans (List.map_id acc)
    simp [dictInsert, hany, hmap, h]
  · have hany : (acc.any (fun x => decide (refKey x = refKey r))) = false := by
      rw [List.any_eq_false]
      intro x hx
      simp only [decide_eq_true_eq]
      intro hk
      exact h (((refKey_inj x r).mp hk) ▸ hx)
    simp [dictInsert, hany, h]

theorem firstDedupAux_congr :
    ∀ (l s₁ s₂ : List MetadataRef), (∀ x, x ∈ s₁ ↔ x ∈ s₂) →
      firstDedupAux s₁ l = firstDedupAux s₂ l := by
  intro l
  induction l with
  | nil => intro s₁ s₂ _; rfl
  | cons r rest ih =>
    intro s₁ s₂ h
    by_cases hr : r ∈ s₁
    · simp only [firstDedupAux, if_pos hr, if_pos ((h r).mp hr)]
      exact ih s₁ s₂ h
    · simp only [firstDedupAux, if_neg hr, if_neg (fun c => hr ((h r).mpr c))]
      exact congrArg (r :: ·) (ih (r :: s₁) (r :: s₂) (by intro x; simp [h x]))

theorem foldl_dictInsert :
    ∀ (l acc : List MetadataRef), l.foldl dictInsert acc = acc ++ firstDedupAux acc l := by
  intro l
  induction l with
  | nil => intro acc; simp [firstDedupAux]
  | cons r rest ih =>
    intro acc
    rw [List.foldl_cons, dictInsert_eq]
    by_cases h : r ∈ acc
    · rw [if_pos h]
      simp only [firstDedupAux, if_pos h]
      exact ih acc
    · rw [if_neg h]
      simp only [firstDedupAux, if_neg h]
      rw [ih (acc ++ [r]),
        firstDedupAux_congr rest (acc ++ [r]) (r :: acc) (by intro x; simp [or_comm])]
      simp

theorem dedupRefs_eq_firstDedup (l : List MetadataRef) : dedupRefs l = firstDedup l := by
  have h := foldl_dictInsert l []
  simpa [dedupRefs, firstDedup] using h

theorem firstDedupAux_nodup :
    ∀ (l seen : List MetadataRef),
      (firstDedupAux seen l).Nodup ∧ ∀ x ∈ firstDedupAux seen l, x ∉ seen := by
  intro l
  induction l with
  | nil => intro seen; exact ⟨List.nodup_nil, by simp [firstDedupAux]⟩
  | cons r rest ih =>
    intro seen
    by_cases h : r ∈ seen
    · simpa only [firstDedupAux, if_pos h] using ih seen
    · simp only [firstDedupAux, if_neg h]
      obtain ⟨hnd, hmem⟩ := ih (r :: seen)
      refine ⟨List.nodup_cons.mpr ⟨fun hc => (hmem r hc) (List.mem_cons_self r seen), hnd⟩, ?_⟩
      intro x hx
      rcases List.mem_cons.mp hx with h1 | h2
      · exact h1 ▸ h
      · exact fun hxs => hmem x h2 (List.mem_cons_of_mem r hxs)

/-- C4: the declaration list `recognize` returns carries no duplicate
(direction, application, field) triple; exactly the first-encountered
occurrence of each triple survives, in first-encountered order: the result
is precisely the first-occurrence deduplication of the three passes'
concatenated raw declarations. -/
theorem recognize_dedup_first_occurrence (doc : PyStr) :
    parse_docstring_for_tags (some doc) = firstDedup (rawRefs doc) ∧
    ((parse_docstring_for_tags (some doc)).map refKey).Nodup := by
  have hd : parse_docstring_for_tags (some doc) = firstDedup (rawRefs doc) := by
    cases doc with
    | nil => rfl
    | cons c cs =>
      simp only [parse_docstring_for_tags, List.isEmpty_cons, Bool.false_eq_true, if_false]
      exact dedupRefs_eq_firstDedup _
  refine ⟨hd, ?_⟩
  rw [hd]
  exact List.Nodup.map (fun x y hxy => (refKey_inj x y).mp hxy)
    (firstDedupAux_nodup (rawRefs doc) []).1

/-! Lemmas about the absence of each syntax (claim C5). -/

theorem patternA_eq_none :
    ∀ ls : List PyStr,
      ((ls.zip ls.tail).all (fun p => !(isHeadingTitle p.1 && isUnderline p.2))) = true →
      patternA ls = none := by
  intro ls
  induction ls with
  | nil => intro _; rfl
  | cons l rest ih =>
    intro h
    cases rest with
    | nil => rfl
    | cons l2 rest2 =>
      simp only [List.tail_cons, List.zip_cons_cons, List.all_cons, Bool.and_eq_true,
        Bool.not_eq_true'] at h
      simp only [patternA, h.1, Bool.false_eq_true, if_false]
      apply ih
      simp only [List.tail_cons]
      exact List.all_eq_true.mpr (fun x hx => (List.all_eq_true.mp h.2) x hx)

theorem patternB_eq_none :
    ∀ ls : List PyStr,
      (ls.all (fun l => !(isPre ("openmetadata:".toList) (pyLower (pyStrip l))))) = true →
      patternB ls = none := by
  intro ls
  induction ls with
  | nil => intro _; rfl
  | cons l rest ih =>
    intro h
    simp only [List.all_cons, Bool.and_eq_true, Bool.not_eq_true'] at h
    simp only [patternB, h.1, Bool.false_eq_true, if_false]
    exact ih (List.all_eq_true.mpr (fun x hx => (List.all_eq_true.mp h.2) x hx))

theorem fieldListRefs_eq_nil (doc : PyStr) (h : noFieldListLine doc = true) :
    fieldListRefs doc = [] := by
  unfold noFieldListLine at h
  unfold fieldListRefs
  revert h
  induction pySplitLines doc with
  | nil => intro _; rfl
  | cons l rest ih =>
    intro h
    simp only [List.all_cons, Bool.and_eq_true, Option.isNone_iff_eq_none] at h
    obtain ⟨h1, h2⟩ := h
    simp only [List.flatMap_cons, h1]
    exact (List.nil_append _).trans (ih (List.all_eq_true.mpr
      (fun x hx => (List.all_eq_true.mp h2) x hx)))

theorem findTagsAux_eq_nil :
    ∀ (s : PyStr), (s.tails.all (fun t => (tagMatchAt t).isNone)) = true →
      ∀ fuel, findTagsAux fuel s = [] := by
  intro s
  induction s with
  | nil =>
    intro _ fuel
    cases fuel with
    | zero => rfl
    | succ k => rfl
  | cons c rest ih =>
    intro h fuel
    rw [List.tails] at h
    simp only [List.all_cons, Bool.and_eq_true, Option.isNone_iff_eq_none] at h
    obtain ⟨h1, h2⟩ := h
    cases fuel with
    | zero => rfl
    | succ k =>
      simp only [findTagsAux, h1]
      exact ih (List.all_eq_true.mpr (fun x hx => (List.all_eq_true.mp h2) x hx)) k

theorem sectionRefs_eq_nil (doc : PyStr) (h1 : noSectionHeading doc = true)
    (h2 : noLabelLine doc = true) : sectionRefs doc = [] := by
  unfold sectionRefs _extract_openmetadata_section_lines
  rw [patternA_eq_none _ h1, patternB_eq_none _ h2]
  rfl

/-- C5 amended: a documentation string with no occurrence of any of the three
specified syntaxes and no label-style line (a line whose stripped lower-case
form starts with "openmetadata:" — a fourth syntax the code recognises)
yields an empty declaration set. -/
theorem recognize_empty_without_tags (doc : PyStr)
    (h1 : noSectionHeading doc = true) (h2 : noLabelLine doc = true)
    (h3 : noFieldListLine doc = true) (h4 : noInlineTag doc = true) :
    parse_docstring_for_tags (some doc) = [] := by
  have hraw : rawRefs doc = [] := by
    unfold rawRefs tagRefs findTags
    rw [sectionRefs_eq_nil doc h1 h2, fieldListRefs_eq_nil doc h3,
      findTagsAux_eq_nil doc h4 doc.length]
    rfl
  cases doc with
  | nil => rfl
  | cons c cs =>
    simp only [parse_docstring_for_tags, List.isEmpty_cons, Bool.false_eq_true, if_false]
    rw [hraw]
    rfl

/-- C5 witness: a docstring with none of the four syntaxes parses to nothing. -/
theorem recognize_empty_without_tags_witness :
    (noSectionHeading exDocC5w = true ∧ noLabelLine exDocC5w = true ∧
      noFieldListLine exDocC5w = true ∧ noInlineTag exDocC5w = true) ∧
    parse_docstring_for_tags (some exDocC5w) = [] :=
  ⟨⟨by decide, by decide, by decide, by decide⟩,
    recognize_empty_without_tags exDocC5w (by decide) (by decide) (by decide) (by decide)⟩

/-- C5 counterexample: `"OpenMetadata: upstream: a:b"` contains no occurrence
of the section style (no underline line), the field-list style, or the inline
tag style, yet `recognize` returns a declaration — the label-style syntax is
a fourth recogniser the claim's three syntaxes do not cover. -/
theorem recognize_label_syntax_counterexample :
    noSectionHeading exDocC5 = true ∧ noFieldListLine exDocC5 = true ∧
    noInlineTag exDocC5 = true ∧
    parse_docstring_for_tags (some exDocC5) =
      [MetadataRef.mk Direction.upstream ("a".toList) ("b".toList)] ∧
    parse_docstring_for_tags (some exDocC5) ≠ [] := by
  refine ⟨by decide, by decide, by decide, by decide, by decide⟩

/-- C9: splitting a comma-separated part on its first colon keeps empty
components: the part ":x" resolves to application "" and field "x", and a
docstring declaring it yields that declaration rather than dropping it. -/
theorem empty_app_component_kept :
    _split_app_field (":x".toList) = some ([], "x".toList) ∧
    parse_docstring_for_tags (some (":openmetadata-upstream: :x".toList)) =
      [MetadataRef.mk Direction.upstream [] ("x".toList)] := by
  refine ⟨by decide, by decide⟩

/-- C2 counterexample: with `billing`'s column sub-mapping sending `amount`
to the empty string, the field appears in the sub-mapping, so the claim
prescribes a Column reference carrying that mapped name — but `if col_fqn:`
is Python truthiness, the empty mapping falls through to the entity level,
and with no entity fqn configured the code returns absent. -/
theorem resolve_empty_fqn_counterexample :
    resolve_application_field exCfgC2 ("billing".toList) ("amount".toList) = none ∧
    resolveClaim exCfgC2 ("billing".toList) ("amount".toList) =
      some (EntityRef.mk ("column".toList) [] none) ∧
    resolve_application_field exCfgC2 ("billing".toList) ("amount".toList) ≠
      resolveClaim exCfgC2 ("billing".toList) ("amount".toList) := by
  refine ⟨by decide, by decide, by decide⟩

/-- C2 amended: resolution returns the Column reference exactly when the
field's mapped name is non-empty; an empty column mapping falls through to
the entity level, which applies its declared kind (default "table") exactly
when the configured entity fqn is non-empty; otherwise the result is absent;
an application absent from the map resolves to absent. -/
theorem resolve_application_field_amended (cfg : OMConfig) (application fld : PyStr) :
    resolve_application_field cfg application fld = resolveAmended cfg application fld := by
  unfold resolve_application_field resolveAmended entityFallback
  cases lookupA cfg.applications application with
  | none => rfl
  | some app =>
    cases lookupA app.columns fld with
    | none => rfl
    | some colFqn =>
      by_cases h : colFqn.isEmpty <;> simp [h]

/-! Lemmas characterising the section extraction (claim C7). -/

theorem patternA_char :
    ∀ ls : List PyStr,
      patternA ls = (headingIdx? ls).map (fun i => collectA (ls.drop (i + 2)))
  | [] => rfl
  | [_] => rfl
  | l :: l2 :: rest => by
    by_cases h : isHeadingTitle l && isUnderline l2
    · simp only [patternA, headingIdx?, h, if_true]
      rfl
    · simp only [patternA, headingIdx?, h, Bool.false_eq_true, if_false]
      rw [patternA_char (l2 :: rest)]
      cases hI : headingIdx? (l2 :: rest) with
      | none => rfl
      | some i =>
        simp only [Option.map_some']
        have hdrop : (l :: l2 :: rest).drop (i + 1 + 2) = (l2 :: rest).drop (i + 2) := by
          have : i + 1 + 2 = (i + 2) + 1 := by omega
          rw [this, List.drop_succ_cons]
        rw [hdrop]

theorem collectA_eq_spec : ∀ ls : List PyStr, collectA ls = specSectionBody ls
  | [] => rfl
  | [_] => rfl
  | l :: l2 :: rest => by
    by_cases h : !(pyStrip l).isEmpty && isUnderline l2
    · simp only [collectA, specSectionBody, stopIdx?, h, if_true]
      rfl
    · simp only [collectA, specSectionBody, stopIdx?, h, Bool.false_eq_true, if_false]
      rw [collectA_eq_spec (l2 :: rest)]
      unfold specSectionBody
      cases hI : stopIdx? (l2 :: rest) with
      | none => rfl
      | some k => rfl

/-- C7 amended: when the docstring has a section heading (first one at index
`i`), the extracted section body is exactly the lines after the underline up
to, but not including, the next line that is non-blank after stripping and is
itself followed by an underline line — or all remaining lines when no such
line exists. -/
theorem section_body_characterization (doc : PyStr) (i : Nat)
    (h : headingIdx? (pySplitLines doc) = some i) :
    _extract_openmetadata_section_lines doc =
      specSectionBody ((pySplitLines doc).drop (i + 2)) := by
  have hA : patternA (pySplitLines doc) =
      some (collectA ((pySplitLines doc).drop (i + 2))) := by
    rw [patternA_char, h]
    rfl
  simp only [_extract_openmetadata_section_lines, hA]
  exact collectA_eq_spec _

/-- C7 witness: a plain well-formed section is characterised by the amended
description. -/
theorem section_body_characterization_witness :
    headingIdx? (pySplitLines exDocC7w) = some 0 ∧
    _extract_openmetadata_section_lines exDocC7w =
      specSectionBody ((pySplitLines exDocC7w).drop 2) :=
  ⟨by decide, section_body_characterization exDocC7w 0 (by decide)⟩

/-- C7 counterexample: the claim's stop condition ("the next line that is
itself followed by such an underline") says the body after the heading of
`exDocC7` is the single directive line, because the following blank line is
followed by an underline; the code additionally requires the stop line to be
non-blank, so it collects the blank line, the underline line and the line
after it as body as well. -/
theorem section_body_stop_counterexample :
    headingIdx? (pySplitLines exDocC7) = some 0 ∧
    claimSectionBody ((pySplitLines exDocC7).drop 2) = ["upstream: a:b".toList] ∧
    _extract_openmetadata_section_lines exDocC7 =
      ["upstream: a:b".toList, [], "----".toList, "more".toList] ∧
    _extract_openmetadata_section_lines exDocC7 ≠
      claimSectionBody ((pySplitLines exDocC7).drop 2) := by
  refine ⟨by decide, by decide, by decide, by decide⟩

/-! Lemmas about the tree walk (claims C3 and C10). -/

theorem sizeNode_pos (n : PyNode) : 1 ≤ sizeNode n := by
  cases n <;> simp [sizeNode]

theorem sizeForest_toList : ∀ f : PyForest, sizeForest f = queueSize f.toList
  | .nil => rfl
  | .cons n rest => by
    simp [sizeForest, PyForest.toList, queueSize, sizeForest_toList rest]

theorem sizeNode_children (n : PyNode) :
    sizeNode n = 1 + queueSize (childrenOf n).toList := by
  cases n <;> simp [sizeNode, childrenOf, sizeForest_toList]

theorem queueSize_append : ∀ a b : List PyNode, queueSize (a ++ b) = queueSize a + queueSize b := by
  intro a b
  induction a with
  | nil => simp [queueSize]
  | cons n rest ih => simp [queueSize, ih]; omega

theorem dfsForest_toList : ∀ f : PyForest, dfsForest f = dfsList f.toList
  | .nil => rfl
  | .cons n rest => by
    simp [dfsForest, PyForest.toList, dfsList, dfsForest_toList rest]

theorem dfsNode_cons (n : PyNode) : dfsNode n = n :: dfsList (childrenOf n).toList := by
  cases n <;> simp [dfsNode, childrenOf, dfsForest_toList]

theorem dfsList_append : ∀ a b : List PyNode, dfsList (a ++ b) = dfsList a ++ dfsList b := by
  intro a b
  induction a with
  | nil => rfl
  | cons n rest ih => simp [dfsList, ih]

theorem walkAux_perm :
    ∀ (fuel : Nat) (q : List PyNode), queueSize q ≤ fuel →
      (walkAux fuel q).Perm (dfsList q) := by
  intro fuel
  induction fuel with
  | zero =>
    intro q hq
    cases q with
    | nil => simp [walkAux, dfsList]
    | cons n rest =>
      exfalso
      have h1 := sizeNode_pos n
      simp only [queueSize] at hq
      omega
  | succ k ih =>
    intro q hq
    cases q with
    | nil => simp [walkAux, dfsList]
    | cons n rest =>
      have hch : sizeNode n = 1 + queueSize (childrenOf n).toList := sizeNode_children n
      have hsize : queueSize (rest ++ (childrenOf n).toList) ≤ k := by
        rw [queueSize_append]
        simp only [queueSize] at hq
        omega
      have hstep : walkAux (k + 1) (n :: rest) =
          n :: walkAux k (rest ++ (childrenOf n).toList) := rfl
      rw [hstep]
      refine (List.Perm.cons n (ih _ hsize)).trans ?_
      rw [dfsList_append]
      have hsplit : dfsList (n :: rest) = (n :: dfsList (childrenOf n).toList) ++ dfsList rest := by
        show dfsNode n ++ dfsList rest = _
        rw [dfsNode_cons]
      rw [hsplit]
      simp only [List.cons_append]
      exact List.Perm.cons n List.perm_append_comm

theorem fdFreeForest_mem :
    ∀ f : PyForest, fdFreeForest f = true ↔ ∀ n ∈ f.toList, fdFreeNode n = true
  | .nil => by simp [fdFreeForest, PyForest.toList]
  | .cons n rest => by
    simp only [fdFreeForest, PyForest.toList, Bool.and_eq_true, List.mem_cons]
    rw [fdFreeForest_mem rest]
    constructor
    · rintro ⟨hA, hB⟩ m (rfl | hm)
      · exact hA
      · exact hB m hm
    · intro h
      exact ⟨h n (Or.inl rfl), fun m hm => h m (Or.inr hm)⟩

theorem fdFreeNode_split (n : PyNode) (h : fdFreeNode n = true) :
    isFuncDef n = false ∧ fdFreeForest (childrenOf n) = true := by
  cases n with
  | funcDef a b c d => simp [fdFreeNode] at h
  | asyncFuncDef a b c d => exact ⟨rfl, h⟩
  | other b => exact ⟨rfl, h⟩

theorem walk_filter_top :
    ∀ (fuel : Nat) (q : List PyNode), queueSize q ≤ fuel →
      (∀ n ∈ q, fdFreeForest (childrenOf n) = true) →
      (walkAux fuel q).filter isFuncDef = q.filter isFuncDef := by
  intro fuel
  induction fuel with
  | zero =>
    intro q hq _
    cases q with
    | nil => rfl
    | cons n rest =>
      exfalso
      have := sizeNode_pos n
      simp only [queueSize] at hq
      omega
  | succ k ih =>
    intro q hq hfree
    cases q with
    | nil => rfl
    | cons n rest =>
      have hch : sizeNode n = 1 + queueSize (childrenOf n).toList := sizeNode_children n
      have hsize : queueSize (rest ++ (childrenOf n).toList) ≤ k := by
        rw [queueSize_append]
        simp only [queueSize] at hq
        omega
      have hmemch : ∀ m ∈ (childrenOf n).toList, fdFreeNode m = true :=
        (fdFreeForest_mem (childrenOf n)).mp (hfree n (List.mem_cons_self n rest))
      have hfree2 : ∀ m ∈ rest ++ (childrenOf n).toList, fdFreeForest (childrenOf m) = true := by
        intro m hm
        rcases List.mem_append.mp hm with hA | hB
        · exact hfree m (List.mem_cons_of_mem n hA)
        · exact (fdFreeNode_split m (hmemch m hB)).2
      have hstep : walkAux (k + 1) (n :: rest) =
          n :: walkAux k (rest ++ (childrenOf n).toList) := rfl
      have hchnil : (childrenOf n).toList.filter isFuncDef = [] := by
        rw [List.filter_eq_nil_iff]
        intro m hm
        rw [(fdFreeNode_split m (hmemch m hm)).1]
        simp
      rw [hstep, List.filter_cons, List.filter_cons, ih _ hsize hfree2,
        List.filter_append, hchnil, List.append_nil]

theorem dfs_filter_free :
    ∀ (k : Nat) (q : List PyNode), queueSize q ≤ k →
      (∀ n ∈ q, fdFreeNode n = true) → (dfsList q).filter isFuncDef = [] := by
  intro k
  induction k with
  | zero =>
    intro q hq _
    cases q with
    | nil => rfl
    | cons n rest =>
      exfalso
      have := sizeNode_pos n
      simp only [queueSize] at hq
      omega
  | succ k ih =>
    intro q hq hfree
    cases q with
    | nil => rfl
    | cons n rest =>
      have hn := hfree n (List.mem_cons_self n rest)
      have hch : sizeNode n = 1 + queueSize (childrenOf n).toList := sizeNode_children n
      simp only [queueSize] at hq
      have h1 : queueSize (childrenOf n).toList ≤ k := by omega
      have h2 : queueSize rest ≤ k := by
        have := sizeNode_pos n
        omega
      have hmemch : ∀ m ∈ (childrenOf n).toList, fdFreeNode m = true :=
        (fdFreeForest_mem (childrenOf n)).mp (fdFreeNode_split n hn).2
      have hrest : ∀ m ∈ rest, fdFreeNode m = true :=
        fun m hm => hfree m (List.mem_cons_of_mem n hm)
      have hsplit : dfsList (n :: rest) = (n :: dfsList (childrenOf n).toList) ++ dfsList rest := by
        show dfsNode n ++ dfsList rest = _
        rw [dfsNode_cons]
      rw [hsplit, List.filter_append, List.filter_cons, (fdFreeNode_split n hn).1]
      simp only [Bool.false_eq_true, if_false]
      rw [ih _ h1 hmemch, ih _ h2 hrest]
      rfl

theorem dfs_filter_top :
    ∀ q : List PyNode, (∀ n ∈ q, fdFreeForest (childrenOf n) = true) →
      (dfsList q).filter isFuncDef = q.filter isFuncDef := by
  intro q
  induction q with
  | nil => intro _; rfl
  | cons n rest ih =>
    intro h
    have hn := h n (List.mem_cons_self n rest)
    have hrest : ∀ m ∈ rest, fdFreeForest (childrenOf m) = true :=
      fun m hm => h m (List.mem_cons_of_mem n hm)
    have hsplit : dfsList (n :: rest) = (n :: dfsList (childrenOf n).toList) ++ dfsList rest := by
      show dfsNode n ++ dfsList rest = _
      rw [dfsNode_cons]
    have hchnil : (dfsList (childrenOf n).toList).filter isFuncDef = [] :=
      dfs_filter_free (queueSize (childrenOf n).toList) _ (Nat.le_refl _)
        ((fdFreeForest_mem (childrenOf n)).mp hn)
    rw [hsplit, List.filter_append, List.filter_cons, List.filter_cons, ih hrest]
    cases hfd : isFuncDef n <;> simp [hchnil]

theorem extract_perm_dfs (body : PyForest) :
    (extract_functions_from_file body).Perm
      (((dfsForest body).filter isFuncDef).map entryOf) := by
  unfold extract_functions_from_file astWalk
  have hperm := walkAux_perm (queueSize [PyNode.other body]) [PyNode.other body] (Nat.le_refl _)
  have hdfs : dfsList [PyNode.other body] = PyNode.other body :: dfsForest body := by
    show dfsNode (PyNode.other body) ++ dfsList [] = _
    simp [dfsNode, dfsList]
  have hflt := hperm.filter isFuncDef
  rw [hdfs, List.filter_cons] at hflt
  simp only [isFuncDef, Bool.false_eq_true, if_false] at hflt
  exact hflt.map entryOf

theorem filter_map_lineno (l : List PyNode) :
    ((l.filter isFuncDef).map entryOf).map FunctionEntry.lineno =
      (l.filter isFuncDef).map nodeLineno := by
  rw [List.map_map]
  apply List.map_congr_left
  intro n hn
  have hfd := List.of_mem_filter hn
  cases n with
  | funcDef a b c d => rfl
  | asyncFuncDef a b c d => rfl
  | other b => simp [isFuncDef] at hfd

theorem strictlyIncreasingB_chain :
    ∀ l : List Nat, strictlyIncreasingB l = true ↔ List.Chain' (· < ·) l
  | [] => by simp [strictlyIncreasingB]
  | [a] => by simp [strictlyIncreasingB]
  | a :: b :: rest => by
    simp only [strictlyIncreasingB, Bool.and_eq_true, decide_eq_true_eq, List.chain'_cons]
    rw [strictlyIncreasingB_chain (b :: rest)]

theorem nonDecreasingB_chain :
    ∀ l : List Nat, nonDecreasingB l = true ↔ List.Chain' (· ≤ ·) l
  | [] => by simp [nonDecreasingB]
  | [a] => by simp [nonDecreasingB]
  | a :: b :: rest => by
    simp only [nonDecreasingB, Bool.and_eq_true, decide_eq_true_eq, List.chain'_cons]
    rw [nonDecreasingB_chain (b :: rest)]

theorem strictlyIncreasingB_nodup (l : List Nat) (h : strictlyIncreasingB l = true) :
    l.Nodup := by
  have hch := (strictlyIncreasingB_chain l).mp h
  have hpw : l.Pairwise (· < ·) := List.chain'_iff_pairwise.mp hch
  have hne : l.Pairwise (· ≠ ·) := hpw.imp (fun h => Nat.ne_of_lt h)
  exact hne

theorem astWalk_module (body : PyForest) :
    astWalk [PyNode.other body] =
      PyNode.other body :: walkAux (queueSize body.toList) body.toList := by
  unfold astWalk
  have h1 : queueSize [PyNode.other body] = sizeForest body + 1 := by
    simp [queueSize, sizeNode, Nat.add_comm]
  rw [h1]
  have hstep : walkAux (sizeForest body + 1) [PyNode.other body] =
      PyNode.other body ::
        walkAux (sizeForest body) ([] ++ (childrenOf (PyNode.other body)).toList) := rfl
  rw [hstep]
  simp only [List.nil_append, childrenOf]
  rw [sizeForest_toList]

/-- C3 amended: the extractor yields exactly one entry per synchronous
function definition at any depth — as a multiset, the file-order (depth-first)
list of definitions — and, when the definitions' file-order line numbers
strictly increase, those line numbers are pairwise distinct; the entries are
in file order with strictly increasing line numbers whenever no top-level
statement nests a function definition below it (the breadth-first `ast.walk`
otherwise reorders nested definitions after later top-level ones). -/
theorem extractor_walk_order (body : PyForest)
    (h2 : strictlyIncreasingB (((dfsForest body).filter isFuncDef).map nodeLineno) = true) :
    (extract_functions_from_file body).Perm
      (((dfsForest body).filter isFuncDef).map entryOf) ∧
    ((extract_functions_from_file body).map FunctionEntry.lineno).Nodup ∧
    ((∀ n ∈ body.toList, fdFreeForest (childrenOf n) = true) →
      extract_functions_from_file body = (body.toList.filter isFuncDef).map entryOf ∧
      strictlyIncreasingB ((extract_functions_from_file body).map FunctionEntry.lineno) = true) := by
  have hperm := extract_perm_dfs body
  refine ⟨hperm, ?_, ?_⟩
  · have hlin : (((dfsForest body).filter isFuncDef).map entryOf).map FunctionEntry.lineno =
        ((dfsForest body).filter isFuncDef).map nodeLineno := filter_map_lineno _
    have hnd : ((((dfsForest body).filter isFuncDef).map entryOf).map FunctionEntry.lineno).Nodup := by
      rw [hlin]
      exact strictlyIncreasingB_nodup _ h2
    exact ((hperm.map FunctionEntry.lineno).nodup_iff).mpr hnd
  · intro h1
    have hext : extract_functions_from_file body = (body.toList.filter isFuncDef).map entryOf := by
      unfold extract_functions_from_file
      rw [astWalk_module, List.filter_cons]
      simp only [isFuncDef, Bool.false_eq_true, if_false]
      rw [walk_filter_top _ _ (Nat.le_refl _) h1]
    refine ⟨hext, ?_⟩
    rw [hext, filter_map_lineno, ← dfs_filter_top body.toList h1, ← dfsForest_toList]
    exact h2

/-- C3 witness: a flat module with definitions at lines 1 and 3. -/
theorem extractor_walk_order_witness :
    strictlyIncreasingB (((dfsForest exFlatC3).filter isFuncDef).map nodeLineno) = true ∧
    ((extract_functions_from_file exFlatC3).Perm
        (((dfsForest exFlatC3).filter isFuncDef).map entryOf) ∧
      ((extract_functions_from_file exFlatC3).map FunctionEntry.lineno).Nodup ∧
      ((∀ n ∈ exFlatC3.toList, fdFreeForest (childrenOf n) = true) →
        extract_functions_from_file exFlatC3 = (exFlatC3.toList.filter isFuncDef).map entryOf ∧
        strictlyIncreasingB ((extract_functions_from_file exFlatC3).map FunctionEntry.lineno) = true)) :=
  ⟨by decide, extractor_walk_order exFlatC3 (by decide)⟩

/-- C3 counterexample: for `def a` (line 1) containing `def inner` (line 2)
followed by `def b` (line 4), `ast.walk`'s breadth-first order yields line
numbers [1, 4, 2] — neither monotonically non-decreasing nor in file
(definition) order. -/
theorem extractor_walk_order_counterexample :
    (extract_functions_from_file exBodyC3).map FunctionEntry.lineno = [1, 4, 2] ∧
    nonDecreasingB ((extract_functions_from_file exBodyC3).map FunctionEntry.lineno) = false ∧
    ¬ List.Chain' (· ≤ ·) ((extract_functions_from_file exBodyC3).map FunctionEntry.lineno) ∧
    extract_functions_from_file exBodyC3 ≠
      ((dfsForest exBodyC3).filter isFuncDef).map entryOf := by
  refine ⟨by decide, by decide, ?_, by decide⟩
  intro hc
  have hB := (nonDecreasingB_chain
    ((extract_functions_from_file exBodyC3).map FunctionEntry.lineno)).mpr hc
  rw [(by decide : nonDecreasingB
    ((extract_functions_from_file exBodyC3).map FunctionEntry.lineno) = false)] at hB
  exact Bool.false_ne_true hB

/-- C10: every entry the extractor produces comes from an `ast.FunctionDef`
node — `isinstance(node, ast.FunctionDef)` is false for async definitions —
so the entries are exactly (as a multiset) those of the synchronous
definitions; concretely, a module whose async def carries a tagged docstring
contributes no entry for it. -/
theorem async_functions_omitted :
    (∀ body : PyForest, (extract_functions_from_file body).Perm
      (((dfsForest body).filter isFuncDef).map entryOf)) ∧
    extract_functions_from_file exBodyC10 = [FunctionEntry.mk ("sf".toList) 3 none []] :=
  ⟨extract_perm_dfs, by decide⟩

/-! Lemmas about the catalog client (claims C8, C1, C6). -/

theorem joinWith_map_sepRepl :
    ∀ rel : List PyStr,
      (joinWith '/' rel).map sepRepl = joinWith '_' (rel.map (fun comp => comp.map sepRepl))
  | [] => rfl
  | [x] => by simp [joinWith]
  | x :: y :: rest => by
    simp only [joinWith, List.map_append, List.map_cons]
    rw [joinWith_map_sepRepl (y :: rest)]
    rfl

/-- C8: the entity reference `ensure_pipeline_for_file` returns does not
depend on the request-log state, so every call for the same path yields the
same fully-qualified name; when the path resolves against the root, that name
is the configured service name joined by a dot to the relative path's
components joined by the fixed separator, path-separator characters replaced
by it. -/
theorem pipeline_name_deterministic (cfg : OMConfig) (cwd p : List PyStr) (s1 s2 : Requests) :
    ((ensure_pipeline_for_file cfg cwd s1 p).map Prod.fst =
      (ensure_pipeline_for_file cfg cwd s2 p).map Prod.fst) ∧
    (∀ rel, relative_to cwd p = some rel → rel ≠ [] →
      (ensure_pipeline_for_file cfg cwd s1 p).map Prod.fst =
        some (EntityRef.mk ("pipeline".toList)
          (serviceNameOf cfg ++ '.' :: specPipelineName rel) none)) := by
  constructor
  · unfold ensure_pipeline_for_file
    cases _pipeline_name_for_file cwd p <;> rfl
  · intro rel hrel hne
    cases rel with
    | nil => exact absurd rfl hne
    | cons r rs =>
      unfold ensure_pipeline_for_file _pipeline_name_for_file
      rw [hrel]
      simp only [Option.map_some', List.isEmpty_cons, Bool.false_eq_true, if_false]
      unfold specPipelineName
      rw [← joinWith_map_sepRepl]

/-- C8 witness: two different log states yield the same reference, with the
prescribed fully-qualified name. -/
theorem pipeline_name_deterministic_witness :
    (relative_to exCwdC8 exPathC8 = some exRelC8 ∧ exRelC8 ≠ []) ∧
    ((ensure_pipeline_for_file exCfgC8 exCwdC8 exReqsC8a exPathC8).map Prod.fst =
      (ensure_pipeline_for_file exCfgC8 exCwdC8 exReqsC8b exPathC8).map Prod.fst) ∧
    (ensure_pipeline_for_file exCfgC8 exCwdC8 exReqsC8a exPathC8).map Prod.fst =
      some (EntityRef.mk ("pipeline".toList)
        (serviceNameOf exCfgC8 ++ '.' :: specPipelineName exRelC8) none) :=
  ⟨⟨by decide, by decide⟩,
    (pipeline_name_deterministic exCfgC8 exCwdC8 exPathC8 exReqsC8a exReqsC8b).1,
    (pipeline_name_deterministic exCfgC8 exCwdC8 exPathC8 exReqsC8a exReqsC8b).2
      exRelC8 (by decide) (by decide)⟩

theorem processTags_lineage (cfg : OMConfig) (task : EntityRef)
    (htype : task.type = "pipelineTask".toList) :
    ∀ (tags : List MetadataRef) (reqs : Requests),
      (processTags cfg task tags reqs).lineage =
        reqs.lineage ++ tags.filterMap (edgeOfTag cfg task.fqn) := by
  intro tags
  induction tags with
  | nil => intro reqs; simp [processTags]
  | cons tag rest ih =>
    intro reqs
    simp only [processTags, List.filterMap_cons]
    cases hres : resolve_application_field cfg tag.application tag.fld with
    | none =>
      rw [ih]
      simp [edgeOfTag, hres]
    | some ref =>
      dsimp only
      cases hdir : tag.direction with
      | upstream =>
        rw [if_pos rfl, ih]
        simp [create_lineage, edgeOfTag, hres, hdir, htype]
      | downstream =>
        rw [if_neg (by simp), ih]
        simp [create_lineage, edgeOfTag, hres, hdir, htype]

theorem processFunctions_lineage (cfg : OMConfig) (pipe : EntityRef) (p : List PyStr) :
    ∀ (fns : List FunctionEntry) (reqs : Requests),
      (processFunctions cfg pipe p fns reqs).lineage =
        reqs.lineage ++ fns.flatMap (fun fn =>
          fn.tags.filterMap (edgeOfTag cfg (pipe.fqn ++ '.' :: fn.name))) := by
  intro fns
  induction fns with
  | nil => intro reqs; simp [processFunctions]
  | cons fn rest ih =>
    intro reqs
    simp only [processFunctions, List.flatMap_cons]
    rw [ih, processTags_lineage cfg _ rfl]
    simp [ensure_task_for_function, List.append_assoc]

theorem createEntriesAux_lineage (cfg : OMConfig) (cwd : List PyStr) :
    ∀ (entries : List (List PyStr × List FunctionEntry)) (reqs : Requests),
      (createEntriesAux cfg cwd entries reqs).2 = some () →
      (createEntriesAux cfg cwd entries reqs).1.lineage =
        reqs.lineage ++ lineageSpec cfg cwd entries := by
  intro entries
  induction entries with
  | nil => intro reqs _; simp [createEntriesAux, lineageSpec]
  | cons fe rest ih =>
    intro reqs hok
    cases hn : _pipeline_name_for_file cwd fe.1 with
    | none =>
      have hens : ensure_pipeline_for_file cfg cwd reqs fe.1 = none := by
        simp [ensure_pipeline_for_file, hn]
      simp only [createEntriesAux, hens] at hok
      simp at hok
    | some name =>
      have hens : ensure_pipeline_for_file cfg cwd reqs fe.1 =
          some (EntityRef.mk ("pipeline".toList) (serviceNameOf cfg ++ '.' :: name) none,
            Requests.mk
              (reqs.pipelines ++ [PipelineAction.ensure (serviceNameOf cfg) name fe.1])
              reqs.lineage) := by
        simp [ensure_pipeline_for_file, hn]
      simp only [createEntriesAux, hens] at hok ⊢
      rw [ih _ hok, processFunctions_lineage]
      have hp : pipelineFqnOf cfg cwd fe.1 = some (serviceNameOf cfg ++ '.' :: name) := by
        simp [pipelineFqnOf, hn]
      simp only [lineageSpec, List.flatMap_cons, hp]
      simp [List.append_assoc]

/-- C1: in a run that completes, the queued lineage records are exactly one
per resolving declaration, oriented per its direction: an Upstream
declaration resolving to reference R yields the edge (R → task) and a
Downstream one the edge (task → R), where the task is the owning function's
task reference inside its file's pipeline; no other orientation occurs. -/
theorem edge_orientation_offline (cfg : OMConfig) (cwd : List PyStr)
    (entries : List (List PyStr × List FunctionEntry))
    (h : (create_openmetadata_entries cfg cwd entries).2 = some ()) :
    (create_openmetadata_entries cfg cwd entries).1.lineage = lineageSpec cfg cwd entries := by
  have hmain := createEntriesAux_lineage cfg cwd entries (Requests.mk [] []) h
  simpa [create_openmetadata_entries] using hmain

/-- C1 witness: a run with one upstream and one downstream declaration. -/
theorem edge_orientation_offline_witness :
    (create_openmetadata_entries exCfgC1 [] exEntriesC1).2 = some () ∧
    (create_openmetadata_entries exCfgC1 [] exEntriesC1).1.lineage =
      lineageSpec exCfgC1 [] exEntriesC1 :=
  ⟨by decide, edge_orientation_offline exCfgC1 [] exEntriesC1 (by decide)⟩

/-- C6 amended: with a config given, dry-run off and the catalog package
importable, a missing host/port or auth token makes the run fail during
client construction, after the files are scanned but before any catalog
mutation: the event trace is exactly the scan events, with no catalog or
lineage action. -/
theorem config_error_before_catalog (omI dr cg : Bool) (cfg : OMConfig) (cwd : List PyStr)
    (files : List (List PyStr × PyForest))
    (onlineRun : List (List PyStr × List FunctionEntry) → List MainEvent × Option Unit)
    (h1 : dr = false) (h2 : cg = true) (h3 : omI = true)
    (h4 : (cfg.hostPort.isNone || cfg.jwtToken.isNone) = true) :
    mainModel omI dr cg cfg cwd files onlineRun =
      (files.map (fun f => MainEvent.scannedFile f.1), none) := by
  subst h1
  subst h2
  subst h3
  simp [mainModel, h4]

/-- C6 witness: one file, token missing — the trace is the scan event alone
and the run fails. -/
theorem config_error_before_catalog_witness :
    (exCfgC6.hostPort.isNone || exCfgC6.jwtToken.isNone) = true ∧
    mainModel true false true exCfgC6 [] [exFileC6] (fun _ => ([], some ())) =
      ([MainEvent.scannedFile exFileC6.1], none) :=
  ⟨by decide,
    (config_error_before_catalog true false true exCfgC6 [] [exFileC6]
      (fun _ => ([], some ())) rfl rfl rfl (by decide)).trans (by decide)⟩

/-- C6 counterexample: the claim says the configuration error aborts the run
before any file is processed, but `main` scans (parses and extracts) every
file first and only then constructs the helper whose `_init_client` raises:
with a token missing, the run errors while the trace already records the
scanned file. -/
theorem config_error_after_scan_counterexample :
    (mainModel true false true exCfgC6 [] [exFileC6] (fun _ => ([], some ()))).2 = none ∧
    MainEvent.scannedFile exFileC6.1 ∈
      (mainModel true false true exCfgC6 [] [exFileC6] (fun _ => ([], some ()))).1 := by
  refine ⟨by decide, by decide⟩
